import Mathlib

/-
Verification of the py2port frequency-domain circuit library.

The development shallow-embeds the library's core (src/py2port/oneport.py,
src/py2port/twoport.py, src/py2port/waveform.py) over exact real and complex
arithmetic:

* numpy float/complex arrays become Lean functions of a real frequency sample
  (all numpy array operations in the source are element-wise over the frequency
  axis, so a per-sample model is equivalent), or `List ℝ` / `List ℂ` where the
  source manipulates whole time-domain buffers;
* the `divide` helper of oneport.py/twoport.py (`z = x/y; z[isnan(z)] = 1e18`)
  becomes an exact division with the substitution at a zero denominator: for
  complex arrays, numpy division by exactly `0+0j` produces a NaN component
  (0/0 appears in either the textbook or the Smith division formula), so the
  element is replaced by the real constant 1e18; for a nonzero denominator the
  quotient is exact and kept;
* fallible Python code (raising slice/broadcast/validation errors) returns
  `Except String`;
* `scipy.interpolate.interp1d` (used by the ferrite model `Lb`) is modelled
  from its documented behaviour: construction requires at least 2 data points,
  does not validate monotonicity (`assume_sorted=False` sorts the abscissae),
  and calls raise a ValueError outside the data range (`bounds_error` default).
-/

namespace Py2Port

noncomputable section

/-- Embeds `divide` from oneport.py / twoport.py: `z = x/y; z[numpy.isnan(z)] = 1e18`.
Complex division by exactly zero yields a NaN component in numpy, which the
policy replaces by the (real) constant 1e18; all other quotients are exact. -/
def divide (x y : ℂ) : ℂ := if y = 0 then 10 ^ 18 else x / y

lemma divide_of_ne (x : ℂ) {y : ℂ} (h : y ≠ 0) : divide x y = x / y := if_neg h

lemma divide_of_eq (x : ℂ) {y : ℂ} (h : y = 0) : divide x y = 10 ^ 18 := if_pos h

/-- Angular frequency: `fc.rad = 2*numpy.pi*fc.hz` (freq.py, class Freq). -/
def omega (f : ℝ) : ℝ := 2 * Real.pi * f

/-- One-port node trees (oneport.py).  `base` is the `OnePort` base class
(zero impedance); `prim` stands for any further device with its own impedance
function (e.g. `Cp`, `Lb`), so theorems quantifying over nodes cover them. -/
inductive OnePort where
  | base
  | R (value : ℝ)
  | C (value : ℝ)
  | L (value : ℝ)
  | prim (Zf : ℝ → ℂ)
  | InLine (a b : OnePort)
  | Parallel (a b : OnePort)

/-- Per-frequency-sample impedance `Z(fc)` of a one-port node, from the `Z`
methods in oneport.py: base `0.0*rad + 0.0j*rad`; `R.Z = value + rad*0.0j`;
`C.Z = divide(1, rad*value*1j)`; `L.Z = rad*value*1j`;
`InLine.Z = a.Z + b.Z`; `Parallel.Z = divide(1, divide(1,a.Z) + divide(1,b.Z))`. -/
def Z : OnePort → ℝ → ℂ
  | .base, _ => 0
  | .R v, _ => (v : ℂ)
  | .C v, f => divide 1 (((omega f : ℝ) : ℂ) * (v : ℂ) * Complex.I)
  | .L v, f => ((omega f : ℝ) : ℂ) * (v : ℂ) * Complex.I
  | .prim g, f => g f
  | .InLine a b, f => Z a f + Z b f
  | .Parallel a b, f => divide 1 (divide 1 (Z a f) + divide 1 (Z b f))

/-- Embeds `OnePort.__pow__` (oneport.py): `x = self; for i in range(0,a):
x = InLine(x, self); return x` — n iterations leave n+1 copies in line. -/
def pow (a : OnePort) : ℕ → OnePort
  | 0 => a
  | n + 1 => .InLine (pow a n) a

/-- Embeds `OnePort.__floordiv__` (oneport.py): `for i in range(0,a):
x = Parallel(self, self); return x`.  The loop body never uses the
accumulator, so every iteration rebuilds `Parallel(self, self)`; with a zero
count `x` is never assigned and Python raises at `return x`. -/
def floordiv (a : OnePort) (n : ℕ) : Except String OnePort :=
  if n = 0 then .error "UnboundLocalError: local variable x referenced before assignment"
  else .ok (.Parallel a a)

/-- Modelled from the spec: repeated parallel composition, "'N in parallel'
analogous with Parallel" — Parallel applied N times against copies of the same
node (the intended meaning of `a // N`, mirroring how `__pow__` iterates
`InLine`).  Used only to compare the source's `floordiv` against the spec. -/
def parRepeat (a : OnePort) : ℕ → OnePort
  | 0 => a
  | n + 1 => .Parallel (parRepeat a n) a

lemma Z_pow (a : OnePort) (n : ℕ) (f : ℝ) :
    Z (pow a n) f = ((n : ℂ) + 1) * Z a f := by
  induction n with
  | zero => simp [pow]
  | succ n ih =>
    simp only [pow, Z, ih]
    push_cast
    ring

/-- C10: for every one-port node `a`, every `N ≥ 1` and every frequency
sample `f`, the repeated-series operator `a ** N` yields impedance
`(N+1) * a.Z(f)` — N+1 copies in line (one initial copy plus N `InLine`
applications), not N. -/
theorem pow_places_nplus1_copies (a : OnePort) (N : ℕ) (_hN : 1 ≤ N) (f : ℝ) :
    Z (pow a N) f = ((N : ℂ) + 1) * Z a f :=
  Z_pow a N f

theorem pow_places_nplus1_copies_witness :
    1 ≤ 1 ∧ Z (pow (.R 10) 1) 0 = (((1 : ℕ) : ℂ) + 1) * Z (.R 10) 0 :=
  ⟨le_refl 1, pow_places_nplus1_copies (.R 10) 1 (le_refl 1) 0⟩

/-- C1 (code bug): `a // N` ignores the repetition count.  At the failing
input `a = R(10)`, `N = 2`, single frequency sample `f = 1`: the source's
`__floordiv__` returns `Parallel(a, a)` with impedance `10/2 = 5`, whereas the
spec's repeated parallel (`Parallel` applied twice against copies of `a`)
has impedance `10/3`. -/
theorem floordiv_ignores_count :
    floordiv (.R 10) 2 = .ok (.Parallel (.R 10) (.R 10))
    ∧ Z (.Parallel (.R 10) (.R 10)) 1 = 5
    ∧ Z (parRepeat (.R 10) 2) 1 = 10 / 3
    ∧ (5 : ℂ) ≠ 10 / 3 := by
  have d10 : divide 1 ((10 : ℝ) : ℂ) = 1 / 10 := by
    rw [divide_of_ne _ (by norm_num)]; norm_num
  have hpar : divide 1 (divide 1 ((10:ℝ):ℂ) + divide 1 ((10:ℝ):ℂ)) = 5 := by
    rw [d10, show (1 / 10 + 1 / 10 : ℂ) = 1 / 5 by norm_num,
      divide_of_ne _ (by norm_num)]
    norm_num
  refine ⟨rfl, hpar, ?_, by norm_num⟩
  show divide 1
      (divide 1 (divide 1 (divide 1 ((10:ℝ):ℂ) + divide 1 ((10:ℝ):ℂ))) + divide 1 ((10:ℝ):ℂ)) = 10 / 3
  rw [hpar, d10, divide_of_ne _ (by norm_num : (5:ℂ) ≠ 0),
    show (1 / 5 + 1 / 10 : ℂ) = 3 / 10 by norm_num,
    divide_of_ne _ (by norm_num)]
  norm_num

/-- C4: the primitive capacitor `C(v).Z` returns `1/(j*omega*v)` where
`omega*v` is nonzero, and the finite design constant `1e18` where
`omega*v = 0` (singular-substitution policy), never an infinity/NaN/error. -/
theorem C_singular_policy (v f : ℝ) :
    (omega f * v = 0 → Z (.C v) f = 10 ^ 18)
    ∧ (omega f * v ≠ 0 →
        Z (.C v) f = 1 / (Complex.I * ((omega f * v : ℝ) : ℂ))) := by
  have hz : ((omega f : ℝ) : ℂ) * (v : ℂ) * Complex.I = ((omega f * v : ℝ) : ℂ) * Complex.I := by
    push_cast; ring
  constructor
  · intro h
    simp only [Z, divide, hz, h]
    norm_num
  · intro h
    have hne : ((omega f * v : ℝ) : ℂ) * Complex.I ≠ 0 :=
      mul_ne_zero (by exact_mod_cast h) Complex.I_ne_zero
    simp only [Z, hz, divide_of_ne _ hne]
    rw [mul_comm]

theorem C_singular_policy_witness :
    (omega 0 * 1 = 0 ∧ Z (.C 1) 0 = 10 ^ 18)
    ∧ (omega 1 * 1 ≠ 0 ∧ Z (.C 1) 1 = 1 / (Complex.I * ((omega 1 * 1 : ℝ) : ℂ))) :=
  ⟨⟨by simp [omega], (C_singular_policy 1 0).1 (by simp [omega])⟩,
   ⟨by simp [omega, Real.pi_ne_zero], (C_singular_policy 1 1).2 (by simp [omega, Real.pi_ne_zero])⟩⟩

/-- numpy principal square root on complex arrays: `csqrt z = z ^ (1/2)` with
the principal branch (argument in `(-π, π]`), and `csqrt 0 = 0`. -/
def csqrt (z : ℂ) : ℂ := z ^ ((1 : ℂ) / 2)

/-- The per-unit-length series term of the lossy line (twoport.py, `W.A`):
`R = self.R0*numpy.sign(fc.rad); R += numpy.sqrt(fc.hz+0.0j)*(1+1j)*self.Rs`. -/
def Wseries (R0 Rs f : ℝ) : ℂ :=
  (R0 : ℂ) * (Real.sign (omega f) : ℂ) + csqrt (f : ℂ) * (1 + Complex.I) * (Rs : ℂ)

/-- The per-unit-length shunt term of the lossy line (twoport.py, `W.A`):
`G = self.G0*numpy.sign(fc.rad); G += divide(fc.hz, numpy.sqrt(1+(fc.hz)**2)+0.0j)*self.Gd`. -/
def Wshunt (G0 Gd f : ℝ) : ℂ :=
  (G0 : ℂ) * (Real.sign (omega f) : ℂ)
    + divide (f : ℂ) ((Real.sqrt (1 + f ^ 2) : ℝ) : ℂ) * (Gd : ℂ)

/-- Propagation coefficient of the lossy line (twoport.py, `W.A`):
`y = numpy.sqrt((1j*rad*L + R)*(1j*rad*C + G)); y *= numpy.sign(fc.rad)`. -/
def Wgamma (L Cv R0 G0 Rs Gd f : ℝ) : ℂ :=
  csqrt ((Complex.I * (omega f : ℂ) * (L : ℂ) + Wseries R0 Rs f)
      * (Complex.I * (omega f : ℂ) * (Cv : ℂ) + Wshunt G0 Gd f))
    * (Real.sign (omega f) : ℂ)

/-- Characteristic impedance of the lossy line (twoport.py, `W.A`):
`Zc = numpy.sqrt(divide(1j*rad*L + R, 1j*rad*C + G))`. -/
def WZc (L Cv R0 G0 Rs Gd f : ℝ) : ℂ :=
  csqrt (divide (Complex.I * (omega f : ℂ) * (L : ℂ) + Wseries R0 Rs f)
      (Complex.I * (omega f : ℂ) * (Cv : ℂ) + Wshunt G0 Gd f))

/-- Transmission coefficient of the lossy line (twoport.py, `W.A`):
`H = numpy.exp(-self.length*y)`, where `W.__init__` stores
`self.length = units.float(length)/39.3700787` (inches to metres). -/
def WH (len L Cv R0 G0 Rs Gd f : ℝ) : ℂ :=
  Complex.exp (-((len / 39.3700787 : ℝ) : ℂ) * Wgamma L Cv R0 G0 Rs Gd f)

/-- ABCD matrix of the lossy line (twoport.py, `W.A`):
`A = [[(divide(1,H) + H)/2, Zc*(divide(1,H) - H)/2],
[(1/Zc)*((divide(1,H) - H)/2), (divide(1,H) + H)/2]]`. -/
def WAmat (len L Cv R0 G0 Rs Gd f : ℝ) : Matrix (Fin 2) (Fin 2) ℂ :=
  let H := WH len L Cv R0 G0 Rs Gd f
  let Zc := WZc L Cv R0 G0 Rs Gd f
  !![(divide 1 H + H) / 2, Zc * (divide 1 H - H) / 2;
     (1 / Zc) * ((divide 1 H - H) / 2), (divide 1 H + H) / 2]

/-- Two-port node trees (twoport.py).  `base` is the `TwoPort` base class
(constant matrix `[[1,2],[3,4]]`); `prim` stands for any further device
providing its own ABCD function (e.g. the lossless line `T`). -/
inductive TwoPort where
  | base
  | Shunt (device : OnePort)
  | Series (device : OnePort)
  | Connect (a b : TwoPort)
  | W (len L Cv R0 G0 Rs Gd : ℝ)
  | prim (Af : ℝ → Matrix (Fin 2) (Fin 2) ℂ)

/-- Per-frequency-sample ABCD matrix `A(fc)` of a two-port node, from the `A`
methods in twoport.py: `Shunt.A = [[1,0],[divide(1,Z),1]]`;
`Series.A = [[1,Z],[0,1]]`; `Connect.A = numpy.dot(a.A, b.A)` per sample. -/
def A : TwoPort → ℝ → Matrix (Fin 2) (Fin 2) ℂ
  | .base, _ => !![1, 2; 3, 4]
  | .Shunt z, f => !![1, 0; divide 1 (Z z f), 1]
  | .Series z, f => !![1, Z z f; 0, 1]
  | .Connect a b, f => A a f * A b f
  | .W len L Cv R0 G0 Rs Gd, f => WAmat len L Cv R0 G0 Rs Gd f
  | .prim g, f => g f

/-- Open-circuit input impedance (twoport.py, `TwoPort.Zin`):
`divide(A[0,0], A[1,0])`. -/
def Zin (d : TwoPort) (f : ℝ) : ℂ := divide (A d f 0 0) (A d f 1 0)

/-- Forward voltage gain (twoport.py, `TwoPort.Gf`): `divide(1, A[0,0])`. -/
def Gf (d : TwoPort) (f : ℝ) : ℂ := divide 1 (A d f 0 0)

/-- C6: cascading is associative — `Connect(Connect(a,b),c)` and
`Connect(a,Connect(b,c))` have identical ABCD matrices at every frequency
sample, by associativity of the 2x2 complex matrix product. -/
theorem cascade_assoc (a b c : TwoPort) (f : ℝ) :
    A (.Connect (.Connect a b) c) f = A (.Connect a (.Connect b c)) f := by
  simp only [A]
  rw [Matrix.mul_assoc]

/-- C5 (amended): the voltage-divider identity for `Series(R)` cascaded with
`Shunt(Z)` holds wherever `Z.Z(f)` is nonzero and `Z.Z(f) + R` is nonzero;
when `Z.Z(f) = 0` the singular-substitution policy replaces `1/Z` by `1e18`
and the identity fails even though the denominator `Z + R` is nonzero. -/
theorem series_shunt_divider (r : ℝ) (z : OnePort) (f : ℝ)
    (hz : Z z f ≠ 0) (hd : Z z f + (r : ℂ) ≠ 0) :
    Gf (.Connect (.Series (.R r)) (.Shunt z)) f = Z z f / (Z z f + (r : ℂ)) := by
  have h00 : A (.Connect (.Series (.R r)) (.Shunt z)) f 0 0
      = 1 + (r : ℂ) / Z z f := by
    show (!![1, ((r : ℝ) : ℂ); 0, 1] * !![1, 0; divide 1 (Z z f), 1]) 0 0
        = 1 + (r : ℂ) / Z z f
    rw [Matrix.mul_fin_two, divide_of_ne _ hz]
    simp [div_eq_mul_inv]
  have he : 1 + (r : ℂ) / Z z f = (Z z f + (r : ℂ)) / Z z f := by
    field_simp
  have hne : A (.Connect (.Series (.R r)) (.Shunt z)) f 0 0 ≠ 0 := by
    rw [h00, he]
    exact div_ne_zero hd hz
  rw [Gf, divide_of_ne _ hne, h00, he, one_div_div]

theorem series_shunt_divider_witness :
    Z (.R 5) 0 ≠ 0 ∧ Z (.R 5) 0 + ((10 : ℝ) : ℂ) ≠ 0
    ∧ Gf (.Connect (.Series (.R 10)) (.Shunt (.R 5))) 0
        = Z (.R 5) 0 / (Z (.R 5) 0 + ((10 : ℝ) : ℂ)) := by
  have h5 : Z (.R 5) 0 ≠ 0 := by
    show ((5 : ℝ) : ℂ) ≠ 0
    norm_num
  have h15 : Z (.R 5) 0 + ((10 : ℝ) : ℂ) ≠ 0 := by
    show ((5 : ℝ) : ℂ) + ((10 : ℝ) : ℂ) ≠ 0
    norm_num
  exact ⟨h5, h15, series_shunt_divider 10 (.R 5) 0 h5 h15⟩

/-- C5 (counterexample): with `Z = R(0)` (zero impedance one-port) and
`R = 10` the claimed guard holds — the denominator `Z + R = 10` is nonzero —
yet `Gf` is `1/(1 + 10*1e18)`, not `Z/(Z+R) = 0`, because `Shunt` computes
`divide(1, 0) = 1e18` rather than an infinity. -/
theorem series_shunt_divider_cx :
    Z (.R 0) 1 + ((10 : ℝ) : ℂ) ≠ 0
    ∧ Gf (.Connect (.Series (.R 10)) (.Shunt (.R 0))) 1
        ≠ Z (.R 0) 1 / (Z (.R 0) 1 + ((10 : ℝ) : ℂ)) := by
  have hz0 : Z (.R 0) 1 = 0 := by
    show ((0 : ℝ) : ℂ) = 0
    norm_num
  constructor
  · rw [hz0]
    norm_num
  · have h00 : A (.Connect (.Series (.R 10)) (.Shunt (.R 0))) 1 0 0
        = 1 + ((10 : ℝ) : ℂ) * 10 ^ 18 := by
      show (!![1, ((10 : ℝ) : ℂ); 0, 1] * !![1, 0; divide 1 (Z (.R 0) 1), 1]) 0 0
          = 1 + ((10 : ℝ) : ℂ) * 10 ^ 18
      rw [Matrix.mul_fin_two, hz0, divide_of_eq _ rfl]
      simp
    have hne : (1 : ℂ) + ((10 : ℝ) : ℂ) * 10 ^ 18 ≠ 0 := by
      push_cast
      norm_num
    rw [Gf, h00, divide_of_ne _ hne, hz0]
    simp only [zero_div]
    exact one_div_ne_zero hne

lemma csqrt_ofReal {x : ℝ} (hx : 0 ≤ x) : csqrt (x : ℂ) = ((Real.sqrt x : ℝ) : ℂ) := by
  rw [csqrt, show ((1 : ℂ) / 2) = (((1 / 2 : ℝ)) : ℂ) from by norm_num,
    ← Complex.ofReal_cpow hx, Real.sqrt_eq_rpow]

/-- C9 (counterexample): at `f = 0` with `R0 = 1`, `Rs = 0`, the lossy line's
series term is `R0*sign(0) = 0`, not the claimed `R0 + Rs*(1+j)*sqrt(|f|) = 1`:
the code multiplies the DC terms `R0`, `G0` by `numpy.sign(fc.rad)`, which
vanishes at zero frequency. -/
theorem W_series_term_cx :
    Wseries 1 0 0 = 0
    ∧ ((1 : ℝ) : ℂ) + ((0 : ℝ) : ℂ) * (1 + Complex.I) * ((Real.sqrt |(0 : ℝ)| : ℝ) : ℂ) = 1
    ∧ (0 : ℂ) ≠ 1 := by
  refine ⟨?_, by norm_num, by norm_num⟩
  simp [Wseries, omega, Real.sign_zero]

/-- C9 (amended): for every strictly positive frequency sample `f` the lossy
line's per-unit-length series term equals `R0 + Rs*(1+j)*sqrt(|f|)`, its shunt
term equals `G0 + Gd*f/sqrt(1+f^2)`, and the returned ABCD matrix is the
stated closed form `[[(1/H+H)/2, Zc*(1/H-H)/2], [(1/H-H)/(2*Zc), (1/H+H)/2]]`
built from them; at `f = 0` the `sign(ω)` factor zeroes the `R0`/`G0`
contributions. -/
theorem W_terms_and_matrix (len L Cv R0 G0 Rs Gd f : ℝ) (hf : 0 < f) :
    Wseries R0 Rs f = (R0 : ℂ) + (Rs : ℂ) * (1 + Complex.I) * ((Real.sqrt |f| : ℝ) : ℂ)
    ∧ Wshunt G0 Gd f = (G0 : ℂ) + (Gd : ℂ) * (f : ℂ) / ((Real.sqrt (1 + f ^ 2) : ℝ) : ℂ)
    ∧ WAmat len L Cv R0 G0 Rs Gd f =
        !![(1 / WH len L Cv R0 G0 Rs Gd f + WH len L Cv R0 G0 Rs Gd f) / 2,
           WZc L Cv R0 G0 Rs Gd f * (1 / WH len L Cv R0 G0 Rs Gd f - WH len L Cv R0 G0 Rs Gd f) / 2;
           (1 / WH len L Cv R0 G0 Rs Gd f - WH len L Cv R0 G0 Rs Gd f)
             / (2 * WZc L Cv R0 G0 Rs Gd f),
           (1 / WH len L Cv R0 G0 Rs Gd f + WH len L Cv R0 G0 Rs Gd f) / 2] := by
  have homega : 0 < omega f := mul_pos (by positivity) hf
  have hsign : Real.sign (omega f) = 1 := Real.sign_of_pos homega
  refine ⟨?_, ?_, ?_⟩
  · rw [Wseries, hsign, csqrt_ofReal hf.le, abs_of_pos hf]
    push_cast
    ring
  · have hden : ((Real.sqrt (1 + f ^ 2) : ℝ) : ℂ) ≠ 0 := by
      have : 0 < Real.sqrt (1 + f ^ 2) := Real.sqrt_pos.mpr (by positivity)
      exact_mod_cast this.ne'
    rw [Wshunt, hsign, divide_of_ne _ hden]
    push_cast
    ring
  · have hH : WH len L Cv R0 G0 Rs Gd f ≠ 0 := Complex.exp_ne_zero _
    have hkey : ∀ zc x : ℂ, 1 / zc * (x / 2) = x / (2 * zc) := by
      intro zc x
      rw [div_eq_mul_inv x (2 * zc), mul_inv]
      ring
    simp only [WAmat, divide_of_ne _ hH, hkey]

theorem W_terms_and_matrix_witness :
    Wseries 0 0 1 = ((0 : ℝ) : ℂ) + ((0 : ℝ) : ℂ) * (1 + Complex.I) * ((Real.sqrt |(1 : ℝ)| : ℝ) : ℂ) :=
  (W_terms_and_matrix 0 0 0 0 0 0 0 1 (by norm_num)).1

/-- Ferrite-bead model data (oneport.py, class `Lb`): the breakpoint arrays
handed to `scipy.interpolate.interp1d` (frequency, resistance, reactance). -/
structure LbData where
  F : List ℝ
  Rv : List ℝ
  Xv : List ℝ

/-- Embeds `Lb.__init__`: raises `RuntimeError` when the three array lengths
differ; `scipy.interpolate.interp1d` then raises `ValueError` when fewer than
2 data points are supplied (linear interpolation needs order+1 = 2 points).
No monotonicity check is performed anywhere: `interp1d`'s default
`assume_sorted=False` sorts the abscissae instead of validating them. -/
def LbMk (F R X : List ℝ) : Except String LbData :=
  if F.length ≠ R.length ∨ F.length ≠ X.length then
    .error "RuntimeError: length of all arguments must match"
  else if F.length < 2 then
    .error "ValueError: x and y arrays must have at least 2 entries"
  else .ok ⟨F, R, X⟩

/-- Piecewise-linear interpolation over breakpoints `(x, y)` with sorted
abscissae, as `interp1d` evaluates in-range queries: on the segment
`[x_i, x_(i+1)]` the value is `y_i + (y_(i+1)-y_i)*(q-x_i)/(x_(i+1)-x_i)`. -/
def interpPts : List (ℝ × ℝ) → ℝ → ℝ
  | [], _ => 0
  | [(_, y)], _ => y
  | (x1, y1) :: (x2, y2) :: rest, q =>
    if q ≤ x2 then y1 + (y2 - y1) * (q - x1) / (x2 - x1)
    else interpPts ((x2, y2) :: rest) q

/-- Insert a breakpoint pair into a list sorted by abscissa (helper for the
stable sort performed by `interp1d`'s default `assume_sorted=False`). -/
def insertPair (p : ℝ × ℝ) : List (ℝ × ℝ) → List (ℝ × ℝ)
  | [] => [p]
  | q :: rest => if p.1 ≤ q.1 then p :: q :: rest else q :: insertPair p rest

/-- The joint reordering of the breakpoints performed at `interp1d`
construction: `assume_sorted=False` applies a stable argsort of the
abscissae to both arrays (a stable insertion sort of the pairs by first
component). -/
def sortPairs : List (ℝ × ℝ) → List (ℝ × ℝ)
  | [] => []
  | p :: rest => insertPair p (sortPairs rest)

/-- A call of the `interp1d` object: with the default `bounds_error` a query
below the first or above the last abscissa of the *sorted* data raises
`ValueError`; in-range queries are linearly interpolated over the sorted
breakpoints. -/
def interpCall (xs ys : List ℝ) (q : ℝ) : Except String ℝ :=
  if q < ((sortPairs (xs.zip ys)).headD (0, 0)).1
      ∨ ((sortPairs (xs.zip ys)).getLastD (0, 0)).1 < q then
    .error "ValueError: x_new is out of the interpolation range"
  else .ok (interpPts (sortPairs (xs.zip ys)) q)

/-- Embeds `Lb.Z` (oneport.py): `self.R(fc.hz) + self.X(fc.hz)*1j`, each an
`interp1d` call that can raise on out-of-range queries. -/
def LbZ (lb : LbData) (q : ℝ) : Except String ℂ := do
  let r ← interpCall lb.F lb.Rv q
  let x ← interpCall lb.F lb.Xv q
  return (r : ℂ) + (x : ℂ) * Complex.I

lemma length_insertPair (p : ℝ × ℝ) (l : List (ℝ × ℝ)) :
    (insertPair p l).length = l.length + 1 := by
  induction l with
  | nil => rfl
  | cons q rest ih =>
    rw [insertPair]
    split
    · simp
    · simp [ih]

lemma length_sortPairs (l : List (ℝ × ℝ)) : (sortPairs l).length = l.length := by
  induction l with
  | nil => rfl
  | cons p rest ih => rw [sortPairs, length_insertPair, ih, List.length_cons]

lemma mem_of_mem_insertPair {a p : ℝ × ℝ} {l : List (ℝ × ℝ)}
    (h : a ∈ insertPair p l) : a = p ∨ a ∈ l := by
  induction l with
  | nil => simpa [insertPair] using h
  | cons q rest ih =>
    rw [insertPair] at h
    split at h
    · rcases List.mem_cons.mp h with h1 | h2
      · exact Or.inl h1
      · exact Or.inr h2
    · rcases List.mem_cons.mp h with h1 | h2
      · exact Or.inr (by simp [h1])
      · rcases ih h2 with h3 | h4
        · exact Or.inl h3
        · exact Or.inr (List.mem_cons_of_mem _ h4)

lemma mem_of_mem_sortPairs {a : ℝ × ℝ} {l : List (ℝ × ℝ)}
    (h : a ∈ sortPairs l) : a ∈ l := by
  induction l with
  | nil => simp [sortPairs] at h
  | cons p rest ih =>
    rw [sortPairs] at h
    rcases mem_of_mem_insertPair h with h1 | h2
    · simp [h1]
    · exact List.mem_cons_of_mem _ (ih h2)

lemma headD_mem {α : Type} {l : List α} (d : α) (h : l ≠ []) : l.headD d ∈ l := by
  cases l with
  | nil => exact absurd rfl h
  | cons a as => simp

lemma getLastD_mem {α : Type} : ∀ (l : List α) (d : α), l ≠ [] → l.getLastD d ∈ l
  | [a], _, _ => by simp [List.getLastD]
  | a :: b :: bs, d, _ => by
    have h1 := getLastD_mem (b :: bs) a (by simp)
    have h2 : (a :: b :: bs).getLastD d = (b :: bs).getLastD a := rfl
    rw [h2]
    exact List.mem_cons_of_mem _ h1

lemma LbZ_out_of_range_aux (lb : LbData) (q : ℝ)
    (hlen : lb.Rv.length = lb.F.length) (hne : lb.F ≠ [])
    (hq : (∀ x ∈ lb.F, x < q) ∨ (∀ x ∈ lb.F, q < x)) :
    LbZ lb q = .error "ValueError: x_new is out of the interpolation range" := by
  have hzne : sortPairs (lb.F.zip lb.Rv) ≠ [] := by
    intro hcontra
    have hF : lb.F.length ≠ 0 := by
      simpa [List.length_eq_zero] using hne
    have hL := length_sortPairs (lb.F.zip lb.Rv)
    rw [hcontra, List.length_nil, List.length_zip, hlen] at hL
    omega
  have hcond : q < ((sortPairs (lb.F.zip lb.Rv)).headD (0, 0)).1
      ∨ ((sortPairs (lb.F.zip lb.Rv)).getLastD (0, 0)).1 < q := by
    rcases hq with habove | hbelow
    · right
      have hmem := mem_of_mem_sortPairs (getLastD_mem _ ((0 : ℝ), (0 : ℝ)) hzne)
      exact habove _ (List.of_mem_zip hmem).1
    · left
      have hmem := mem_of_mem_sortPairs (headD_mem ((0 : ℝ), (0 : ℝ)) hzne)
      exact hbelow _ (List.of_mem_zip hmem).1
  show (interpCall lb.F lb.Rv q).bind _ = _
  rw [interpCall, if_pos hcond]
  rfl

/-- C7 (counterexample): the ferrite interpolant built from breakpoints
`F = [1,2]`, `R = [3,4]`, `X = [0,0]` (fmax = 2), queried at `f = 3 > fmax`,
raises a ValueError — it does not return the clamped value `4 + 0j` of the
nearest breakpoint segment. -/
theorem Lb_above_range_cx :
    LbMk [1, 2] [3, 4] [0, 0] = .ok ⟨[1, 2], [3, 4], [0, 0]⟩
    ∧ LbZ ⟨[1, 2], [3, 4], [0, 0]⟩ 3
        = .error "ValueError: x_new is out of the interpolation range"
    ∧ LbZ ⟨[1, 2], [3, 4], [0, 0]⟩ 3 ≠ .ok ((4 : ℝ) : ℂ) := by
  have h1 : LbZ ⟨[1, 2], [3, 4], [0, 0]⟩ 3
      = .error "ValueError: x_new is out of the interpolation range" :=
    LbZ_out_of_range_aux ⟨[1, 2], [3, 4], [0, 0]⟩ 3 rfl (by simp)
      (Or.inl (by norm_num))
  refine ⟨rfl, h1, ?_⟩
  rw [h1]
  exact fun hc => Except.noConfusion hc

/-- C7 (amended): querying the ferrite interpolant at a frequency above fmax
(every breakpoint frequency below the query) or below fmin (every breakpoint
frequency above it) raises a ValueError — scipy `interp1d`'s default
`bounds_error` semantics, checked against the endpoints of the internally
sorted breakpoints; it does not clamp. -/
theorem Lb_out_of_range_raises (lb : LbData) (q : ℝ)
    (hlen : lb.Rv.length = lb.F.length) (hne : lb.F ≠ [])
    (hq : (∀ x ∈ lb.F, x < q) ∨ (∀ x ∈ lb.F, q < x)) :
    LbZ lb q = .error "ValueError: x_new is out of the interpolation range" :=
  LbZ_out_of_range_aux lb q hlen hne hq

theorem Lb_out_of_range_raises_witness :
    LbZ ⟨[1, 2], [3, 4], [0, 0]⟩ 5
      = .error "ValueError: x_new is out of the interpolation range" :=
  Lb_out_of_range_raises ⟨[1, 2], [3, 4], [0, 0]⟩ 5 rfl (by simp)
    (Or.inl (by norm_num))

/-- C8 (counterexample): construction with non-increasing frequency values
`F = [2,1]` succeeds (the length checks pass and nothing validates
monotonicity — scipy `interp1d` sorts instead), contradicting the claim that
non-strictly-increasing frequencies raise a validation error. -/
theorem Lb_no_monotonic_check :
    LbMk [2, 1] [5, 5] [0, 0] = .ok ⟨[2, 1], [5, 5], [0, 0]⟩
    ∧ ¬ List.Chain' (· < ·) [(2 : ℝ), 1] := by
  refine ⟨rfl, ?_⟩
  simp only [List.chain'_cons, List.chain'_singleton, and_true]
  norm_num

/-- C8 (amended): `Lb(F, R, X)` raises a validation error when the three
array lengths differ, and when their common length is below 2; with equal
lengths of at least 2 construction succeeds — monotonicity of the frequency
values is never validated. -/
theorem Lb_construction_validation (F R X : List ℝ) :
    (F.length ≠ R.length ∨ F.length ≠ X.length →
      LbMk F R X = .error "RuntimeError: length of all arguments must match")
    ∧ (F.length = R.length → F.length = X.length → F.length < 2 →
      LbMk F R X = .error "ValueError: x and y arrays must have at least 2 entries")
    ∧ (F.length = R.length → F.length = X.length → 2 ≤ F.length →
      LbMk F R X = .ok ⟨F, R, X⟩) := by
  refine ⟨fun h => ?_, fun h1 h2 h3 => ?_, fun h1 h2 h3 => ?_⟩
  · rw [LbMk, if_pos h]
  · rw [LbMk, if_neg (by omega), if_pos h3]
  · rw [LbMk, if_neg (by omega), if_neg (by omega)]

theorem Lb_construction_validation_witness :
    LbMk [1] [1, 2] [] = .error "RuntimeError: length of all arguments must match"
    ∧ LbMk [1] [1] [1] = .error "ValueError: x and y arrays must have at least 2 entries"
    ∧ LbMk [1, 2] [3, 4] [5, 6] = .ok ⟨[1, 2], [3, 4], [5, 6]⟩ :=
  ⟨(Lb_construction_validation [1] [1, 2] []).1 (by simp),
   (Lb_construction_validation [1] [1] [1]).2.1 rfl rfl (by simp),
   (Lb_construction_validation [1, 2] [3, 4] [5, 6]).2.2 rfl rfl (by simp)⟩

/-- Time-domain waveform record (waveform.py, class `Waveform`).  The initial
`current` is `numpy.zeros(len(time))`; after `w >> device` the source stores a
complex array there, so the model keeps `List ℂ` for voltage and current
(generated waveforms are real-valued, embedded on the real axis). -/
structure Waveform where
  time : List ℝ
  voltage : List ℂ
  current : List ℂ
  tb : ℝ
  tr : ℝ

/-- Embeds `Waveform.__init__`: raises when the time and voltage lengths
differ (the source's raise names the undefined `RunetimeError`, so what
actually escapes is a NameError); otherwise stores the arrays and a fresh
all-zero current of the same length. -/
def WaveformMk (time : List ℝ) (voltage : List ℂ) (tb tr : ℝ) : Except String Waveform :=
  if time.length ≠ voltage.length then
    .error "NameError: name RunetimeError is not defined"
  else .ok ⟨time, voltage, List.replicate time.length 0, tb, tr⟩

/-- Sample count of `numpy.arange(start, stop, step)` (positive step):
`max(0, ceil((stop-start)/step))` — the stop value itself is excluded. -/
def arangeCount (start stop step : ℝ) : ℕ := ⌈(stop - start) / step⌉₊

/-- Python/numpy slice-index resolution for a sequence of length `L`:
negative indices count from the end, results are clipped into `[0, L]`. -/
def pyIdx (L : ℕ) (i : ℤ) : ℕ :=
  (max 0 (if i < 0 then (L : ℤ) + i else min i (L : ℤ))).toNat

/-- numpy basic slice `l[s:e]` (unit stride). -/
def npSlice {α : Type} (l : List α) (s e : ℤ) : List α :=
  (l.take (pyIdx l.length e)).drop (pyIdx l.length s)

/-- numpy slice assignment `l[s:e] = v` with a scalar right-hand side. -/
def assignScalar (l : List ℂ) (s e : ℤ) (v : ℂ) : List ℂ :=
  l.mapIdx fun i x => if pyIdx l.length s ≤ i ∧ i < pyIdx l.length e then v else x

/-- numpy slice assignment `l[s:e] = vals` with an array right-hand side:
broadcasting requires the slice length to equal `len(vals)` (or
`len(vals) = 1`); any other mismatch raises `ValueError`. -/
def assignList (l : List ℂ) (s e : ℤ) (vals : List ℂ) : Except String (List ℂ) :=
  if vals.length = pyIdx l.length e - pyIdx l.length s then
    .ok (l.mapIdx fun i x =>
      if pyIdx l.length s ≤ i ∧ i < pyIdx l.length e then
        vals.getD (i - pyIdx l.length s) 0
      else x)
  else if vals.length = 1 then
    .ok (l.mapIdx fun i x =>
      if pyIdx l.length s ≤ i ∧ i < pyIdx l.length e then vals.getD 0 0 else x)
  else .error "ValueError: could not broadcast input array"

/-- Embeds `numpy.fft.fft`: `X[k] = sum_n x[n] * exp(-2*pi*i*k*n/N)`. -/
def fft (x : List ℂ) : List ℂ :=
  (List.range x.length).map fun (k : ℕ) =>
    ∑ n ∈ Finset.range x.length,
      x.getD n 0 * Complex.exp
        (-2 * (Real.pi : ℂ) * Complex.I * (k : ℂ) * (n : ℂ) / (x.length : ℂ))

/-- Embeds `numpy.fft.ifft`: `x[k] = (1/N) * sum_n X[n] * exp(2*pi*i*k*n/N)`. -/
def ifft (x : List ℂ) : List ℂ :=
  (List.range x.length).map fun (k : ℕ) =>
    (1 / (x.length : ℂ)) * ∑ n ∈ Finset.range x.length,
      x.getD n 0 * Complex.exp
        (2 * (Real.pi : ℂ) * Complex.I * (k : ℂ) * (n : ℂ) / (x.length : ℂ))

/-- Embeds `numpy.fft.fftfreq(n, d)`: `[0, 1, ..., (n-1)//2, -(n//2), ..., -1]/(n*d)`. -/
def fftfreq (n : ℕ) (d : ℝ) : List ℝ :=
  (List.range n).map fun (k : ℕ) =>
    (if k ≤ (n - 1) / 2 then (k : ℝ) else (k : ℝ) - (n : ℝ)) / ((n : ℝ) * d)

/-- The sample step `ts = self.time[1] - self.time[0]` used by `__rshift__`. -/
def tsOf (w : Waveform) : ℝ := w.time.getD 1 0 - w.time.getD 0 0

/-- Embeds `_fft`'s data handling (waveform.py): `numpy.fft.fft(data.astype(numpy.double),
n=len(time))` — `astype(double)` keeps the real part of each sample. -/
def fftD (data : List ℂ) : List ℂ := fft (data.map fun z => ((z.re : ℝ) : ℂ))

/-- The padded drive buffer of `Waveform.__rshift__` with the buffer sample
count `Lbuf` explicit: `voltage = numpy.zeros(len(time))`;
`voltage[0:tb] = self.voltage[0]`; `voltage[-tb-1:-1] = self.voltage[-1]`;
`voltage[tb:-tb] = self.voltage`, where `tb = len(self.time)`.  Accessing
`self.voltage[0]` on an empty array raises. -/
def paddedVoltage (w : Waveform) (Lbuf : ℕ) : Except String (List ℂ) :=
  if w.voltage.length = 0 then .error "IndexError: index 0 is out of bounds"
  else
    assignList
      (assignScalar
        (assignScalar (List.replicate Lbuf (0 : ℂ)) 0 (w.time.length : ℤ)
          (w.voltage.headD 0))
        (-(w.time.length : ℤ) - 1) (-1) (w.voltage.getLastD 0))
      (w.time.length : ℤ) (-(w.time.length : ℤ)) w.voltage

/-- The recovered input-current trace of `Waveform.__rshift__`: the inverse
transform of `Vi/Zin` with the padding discarded — `Zi = device.Zin(f)`;
`Ii = Vi/Zi` (plain numpy division); `_ifft(time, Ii)[tb:-tb]`. -/
def inputCurrentTrace (w : Waveform) (d : TwoPort) (Lbuf : ℕ) (buf : List ℂ) : List ℂ :=
  npSlice
    (ifft (List.zipWith (fun v z => v / z) (fftD buf) ((fftfreq Lbuf (tsOf w)).map (Zin d))))
    (w.time.length : ℤ) (-(w.time.length : ℤ))

/-- The recovered output-voltage trace of `Waveform.__rshift__` before the
final slice: `A = device.Gf(f)`; `Vo = Vi*A`; `vo = _ifft(time, Vo)`. -/
def outputVoltage (w : Waveform) (d : TwoPort) (Lbuf : ℕ) (buf : List ℂ) : List ℂ :=
  ifft (List.zipWith (· * ·) (fftD buf) ((fftfreq Lbuf (tsOf w)).map (Gf d)))

/-- Embeds `Waveform.__rshift__` with the padded buffer sample count as an
explicit parameter (over exact reals `numpy.arange` yields `3N-1` samples;
floating-point rounding of the arange length computation can yield `3N`).
Returns the pair (driving waveform after the call — the method assigns
`self.current = _ifft(time, Ii)[tb:-tb]`, mutating the receiver — and the
newly constructed result `Waveform(time[tb:-tb], vo[tb:-tb], self.tb, self.tr)`). -/
def rshiftWith (w : Waveform) (d : TwoPort) (Lbuf : ℕ) : Except String (Waveform × Waveform) :=
  if w.time.length < 2 then .error "IndexError: index 1 is out of bounds"
  else
    (paddedVoltage w Lbuf).bind fun buf =>
      (WaveformMk
          (npSlice ((List.range Lbuf).map fun (k : ℕ) =>
              (w.time.getD 0 0 - (w.time.length : ℝ) * tsOf w) + (k : ℝ) * tsOf w)
            (w.time.length : ℤ) (-(w.time.length : ℤ)))
          (npSlice (outputVoltage w d Lbuf buf) (w.time.length : ℤ) (-(w.time.length : ℤ)))
          w.tb w.tr).bind
        fun res => .ok ({ w with current := inputCurrentTrace w d Lbuf buf }, res)

/-- Embeds `Waveform.__rshift__` (waveform.py): the buffer is
`numpy.arange(self.time[0] - tb*ts, self.time[-1] + tb*ts, ts)` with
`tb = len(self.time)`, evaluated over exact real arithmetic. -/
def rshift (w : Waveform) (d : TwoPort) : Except String (Waveform × Waveform) :=
  rshiftWith w d
    (arangeCount (w.time.getD 0 0 - (w.time.length : ℝ) * tsOf w)
      (w.time.getLastD 0 + (w.time.length : ℝ) * tsOf w) (tsOf w))

/-- A concrete 3-sample waveform with unit step: time `[0,1,2]`,
voltage `[5,7,9]`, fresh zero current, `tb = tr = 1`. -/
def w3 : Waveform := ⟨[0, 1, 2], [5, 7, 9], List.replicate 3 0, 1, 1⟩

/-- A concrete two-port: a series 10-Ohm resistor. -/
def d3 : TwoPort := .Series (.R 10)

lemma except_bind_ok {α β : Type} (a : α) (f : α → Except String β) :
    (Except.ok a : Except String α).bind f = f a := rfl

lemma rshift_w3_d3_err :
    rshift w3 d3 = .error "ValueError: could not broadcast input array" := by
  have h8 : arangeCount (w3.time.getD 0 0 - (w3.time.length : ℝ) * tsOf w3)
      (w3.time.getLastD 0 + (w3.time.length : ℝ) * tsOf w3) (tsOf w3) = 8 := by
    show arangeCount ((0 : ℝ) - (3 : ℕ) * ((1 : ℝ) - 0)) ((2 : ℝ) + (3 : ℕ) * ((1 : ℝ) - 0))
        ((1 : ℝ) - 0) = 8
    rw [arangeCount]
    norm_num
  rw [rshift, h8]
  rfl

/-- C3 (code bug): at `w3` (3 uniform samples) the drive transform does not
return 3 samples padded by a full window on each side — over exact
arithmetic `numpy.arange(t0 - 3*ts, t2 + 3*ts, ts)` yields `3*3 - 1 = 8`
samples (the stop value is excluded), so the center slice `voltage[3:-3]` has
only 2 slots for the 3 voltage samples and the assignment raises a broadcast
ValueError. -/
theorem rshift_broadcast_error :
    rshift w3 d3 = .error "ValueError: could not broadcast input array" :=
  rshift_w3_d3_err

/-- C2 (counterexample): at the concrete input `w3 >> d3` no Waveform is
produced at all (the call raises), so in particular no new Waveform carrying
the recovered input-current trace is returned. -/
theorem rshift_no_result_cx : ¬ ∃ p, rshift w3 d3 = .ok p := by
  rintro ⟨p, hp⟩
  rw [rshift_w3_d3_err] at hp
  exact Except.noConfusion hp

lemma length_assignScalar (l : List ℂ) (s e : ℤ) (v : ℂ) :
    (assignScalar l s e v).length = l.length := by
  simp [assignScalar, List.length_mapIdx]

lemma pyIdx_coe {L i : ℕ} (h : i ≤ L) : pyIdx L (i : ℤ) = i := by
  simp only [pyIdx]
  omega

lemma pyIdx_neg_coe {L i : ℕ} (hpos : 0 < i) (h : i ≤ L) : pyIdx L (-(i : ℤ)) = L - i := by
  simp only [pyIdx]
  omega

lemma length_fft (x : List ℂ) : (fft x).length = x.length := by
  simp [fft]

lemma length_ifft (x : List ℂ) : (ifft x).length = x.length := by
  simp [ifft]

lemma length_fftfreq (n : ℕ) (d : ℝ) : (fftfreq n d).length = n := by
  simp [fftfreq]

lemma length_fftD (x : List ℂ) : (fftD x).length = x.length := by
  simp [fftD, length_fft]

lemma length_npSlice {α : Type} (l : List α) (N : ℕ) (hl : l.length = 3 * N) (hN : 0 < N) :
    (npSlice l (N : ℤ) (-(N : ℤ))).length = N := by
  rw [npSlice, hl, pyIdx_coe (show N ≤ 3 * N by omega),
    pyIdx_neg_coe hN (show N ≤ 3 * N by omega),
    List.length_drop, List.length_take, hl]
  omega

lemma length_outputVoltage (w : Waveform) (d : TwoPort) (Lbuf : ℕ) (buf : List ℂ)
    (hb : buf.length = Lbuf) : (outputVoltage w d Lbuf buf).length = Lbuf := by
  rw [outputVoltage, length_ifft, List.length_zipWith, length_fftD, hb,
    List.length_map, length_fftfreq]
  omega

lemma assignList_ok (l : List ℂ) (s e : ℤ) (vals : List ℂ)
    (h : vals.length = pyIdx l.length e - pyIdx l.length s) :
    ∃ l', assignList l s e vals = .ok l' ∧ l'.length = l.length :=
  ⟨l.mapIdx fun i x =>
      if pyIdx l.length s ≤ i ∧ i < pyIdx l.length e then
        vals.getD (i - pyIdx l.length s) 0
      else x,
    by rw [assignList, if_pos h],
    by rw [List.length_mapIdx]⟩

lemma paddedVoltage_ok (w : Waveform) (h2 : 2 ≤ w.time.length)
    (hv : w.voltage.length = w.time.length) :
    ∃ buf, paddedVoltage w (3 * w.time.length) = .ok buf
      ∧ buf.length = 3 * w.time.length := by
  have hlen2 : (assignScalar
      (assignScalar (List.replicate (3 * w.time.length) (0 : ℂ)) 0 (w.time.length : ℤ)
        (w.voltage.headD 0))
      (-(w.time.length : ℤ) - 1) (-1) (w.voltage.getLastD 0)).length
      = 3 * w.time.length := by
    rw [length_assignScalar, length_assignScalar, List.length_replicate]
  obtain ⟨l', hok, hlen⟩ := assignList_ok
    (assignScalar
      (assignScalar (List.replicate (3 * w.time.length) (0 : ℂ)) 0 (w.time.length : ℤ)
        (w.voltage.headD 0))
      (-(w.time.length : ℤ) - 1) (-1) (w.voltage.getLastD 0))
    (w.time.length : ℤ) (-(w.time.length : ℤ)) w.voltage
    (by
      rw [hlen2, pyIdx_coe (show w.time.length ≤ 3 * w.time.length by omega),
        pyIdx_neg_coe (show 0 < w.time.length by omega)
          (show w.time.length ≤ 3 * w.time.length by omega)]
      omega)
  refine ⟨l', ?_, by rw [hlen, hlen2]⟩
  rw [paddedVoltage, if_neg (by omega)]
  exact hok

/-- C2 (amended): when the padded buffer comes out one sample longer (`3N`,
as floating-point rounding of the arange length can produce), `w >> d`
mutates the driving waveform `w`: it stores the recovered input-current trace
(inverse transform of `Vi/Zin` with the padding discarded) into `w.current`,
while the returned Waveform carries the recovered output-voltage trace, a
fresh all-zero current array, and `w`'s `tb` and `tr`. -/
theorem rshift_mutates_driver (w : Waveform) (d : TwoPort)
    (h2 : 2 ≤ w.time.length) (hv : w.voltage.length = w.time.length) :
    ∃ buf w' res,
      paddedVoltage w (3 * w.time.length) = .ok buf
      ∧ rshiftWith w d (3 * w.time.length) = .ok (w', res)
      ∧ w'.time = w.time ∧ w'.voltage = w.voltage ∧ w'.tb = w.tb ∧ w'.tr = w.tr
      ∧ w'.current = inputCurrentTrace w d (3 * w.time.length) buf
      ∧ res.current = List.replicate w.time.length 0
      ∧ res.voltage = npSlice (outputVoltage w d (3 * w.time.length) buf)
          (w.time.length : ℤ) (-(w.time.length : ℤ))
      ∧ res.tb = w.tb ∧ res.tr = w.tr := by
  obtain ⟨buf, hpad, hbuf⟩ := paddedVoltage_ok w h2 hv
  have htm : ((List.range (3 * w.time.length)).map fun (k : ℕ) =>
      (w.time.getD 0 0 - (w.time.length : ℝ) * tsOf w) + (k : ℝ) * tsOf w).length
      = 3 * w.time.length := by
    rw [List.length_map, List.length_range]
  have ht' : (npSlice ((List.range (3 * w.time.length)).map fun (k : ℕ) =>
      (w.time.getD 0 0 - (w.time.length : ℝ) * tsOf w) + (k : ℝ) * tsOf w)
      (w.time.length : ℤ) (-(w.time.length : ℤ))).length = w.time.length :=
    length_npSlice _ _ htm (by omega)
  have hv' : (npSlice (outputVoltage w d (3 * w.time.length) buf)
      (w.time.length : ℤ) (-(w.time.length : ℤ))).length = w.time.length :=
    length_npSlice _ _ (length_outputVoltage w d _ buf hbuf) (by omega)
  refine ⟨buf,
    { w with current := inputCurrentTrace w d (3 * w.time.length) buf },
    ⟨npSlice ((List.range (3 * w.time.length)).map fun (k : ℕ) =>
        (w.time.getD 0 0 - (w.time.length : ℝ) * tsOf w) + (k : ℝ) * tsOf w)
        (w.time.length : ℤ) (-(w.time.length : ℤ)),
      npSlice (outputVoltage w d (3 * w.time.length) buf)
        (w.time.length : ℤ) (-(w.time.length : ℤ)),
      List.replicate w.time.length 0, w.tb, w.tr⟩,
    hpad, ?_, rfl, rfl, rfl, rfl, rfl, rfl, rfl, rfl, rfl⟩
  rw [rshiftWith, if_neg (by omega), hpad, except_bind_ok, WaveformMk,
    if_neg (by rw [ht', hv']; exact fun hc => hc rfl), ht', except_bind_ok]

theorem rshift_mutates_driver_witness :
    ∃ buf w' res,
      paddedVoltage w3 (3 * w3.time.length) = .ok buf
      ∧ rshiftWith w3 d3 (3 * w3.time.length) = .ok (w', res)
      ∧ w'.time = w3.time ∧ w'.voltage = w3.voltage ∧ w'.tb = w3.tb ∧ w'.tr = w3.tr
      ∧ w'.current = inputCurrentTrace w3 d3 (3 * w3.time.length) buf
      ∧ res.current = List.replicate w3.time.length 0
      ∧ res.voltage = npSlice (outputVoltage w3 d3 (3 * w3.time.length) buf)
          (w3.time.length : ℤ) (-(w3.time.length : ℤ))
      ∧ res.tb = w3.tb ∧ res.tr = w3.tr :=
  rshift_mutates_driver w3 d3 (by decide) rfl

end

end Py2Port
